import Mathlib

/-! The export traversal and the exclusion flag of nomad-export.

A shallow embedding of `internal/export/exporter.go`, `internal/export/data.go`
and of the `setValue` flag of `internal/export/commands/flags.go`, followed by
the properties proved about them.

Modelling conventions
* A Go `map[string]V` is a finite map keyed by strings (`Finmap`): it has no
  iteration order, `m[k] = v` is `Finmap.insert k v m` (a later store to the
  same key replaces the earlier one), and two maps are equal exactly when they
  have the same keys with the same values.
* A Go `map[string]struct{}` is a finite set of strings.
* A Go `(T, error)` result is an `Except GoError T`: every `return` of the
  embedded functions is either `nil, err` or `value, nil`.
* The `*api.Client` is used through three requests only; it is modelled by the
  three functions of `Client`.  Every function that talks to the client also
  returns the list of requests it issued, in order.
* The records of the upstream API (`api.Namespace`, `api.JobListStub`,
  `api.Job`) are opaque to the exporter apart from `Namespace.Name`,
  `JobListStub.ID` and `JobListStub.Name`; the remaining fields stand for the
  rest of the upstream record.  The slices returned by the listings hold
  non-nil pointers (the loops dereference them unconditionally).
-/

namespace NomadExport

/-! ## Go values -/

/-- A Go `map[string]V`. -/
abbrev GoMap (V : Type) : Type := Finmap (fun _ : String => V)

/-- A Go `map[string]struct{}`. -/
abbrev GoSet : Type := Finset String

/-- A Go `error` value: either an error that wraps nothing, with its text, or
the `*fmt.wrapError` built by `fmt.Errorf` with a `%w` verb, which stores the
formatted text and the wrapped error. -/
inductive GoError where
  | errorString (s : String)
  | wrapError (msg : String) (err : GoError)
  deriving DecidableEq, Repr

namespace GoError

/-- The method `Error()`: the text of the error. -/
def Error : GoError → String
  | errorString s => s
  | wrapError msg _ => msg

/-- The method `Unwrap()` as seen by `errors.Unwrap`. -/
def Unwrap : GoError → Option GoError
  | errorString _ => none
  | wrapError _ err => some err

/-- The chain walked by `errors.Is` / `errors.As`: the error itself, then what
it wraps, and so on. -/
def chain : GoError → List GoError
  | errorString s => [errorString s]
  | wrapError msg err => wrapError msg err :: chain err

end GoError

/-- The call `fmt.Errorf(pre + "%w", err)` where `pre` is the already formatted
text that precedes the `%w` verb (all other verbs of the call sites are `%s`
applied to strings). -/
def Errorf (pre : String) (err : GoError) : GoError :=
  GoError.wrapError (pre ++ err.Error) err

/-! ## Upstream records and the client -/

/-- The record `api.Namespace`. -/
structure Namespace where
  Name : String
  Description : String
  deriving DecidableEq, Repr

/-- The record `api.JobListStub`, the summary of a job in a listing. -/
structure JobListStub where
  ID : String
  Name : String
  Status : String
  deriving DecidableEq, Repr

/-- The record `api.Job`, the full definition of a job. -/
structure Job where
  ID : String
  Name : String
  Spec : String
  deriving DecidableEq, Repr

/-- The three requests the exporter issues through `*api.Client`:
`Namespaces().List(nil)`, `Jobs().List(&QueryOptions{Namespace: ns})` and
`Jobs().Info(id, &QueryOptions{Namespace: ns})`. -/
structure Client where
  ListNamespaces : Except GoError (List Namespace)
  ListJobs : String → Except GoError (List JobListStub)
  GetJob : String → String → Except GoError Job

/-- A request issued to the client. -/
inductive Call where
  | ListNamespaces
  | ListJobs (ns : String)
  | GetJob (id : String) (ns : String)
  deriving DecidableEq, Repr

/-- What a function that talks to the client produces: its Go result and the
requests it issued, oldest first. -/
structure Traced (α : Type) where
  ret : Except GoError α
  calls : List Call

/-! ## data.go -/

structure JobData where
  Info : JobListStub
  Definition : Job
  deriving DecidableEq

structure NamespacedData where
  Jobs : GoMap JobData
  deriving DecidableEq

structure NamespaceData extends NamespacedData where
  Definition : Namespace
  deriving DecidableEq

structure Data where
  Namespaces : GoMap NamespaceData
  deriving DecidableEq

/-! ## exporter.go -/

structure exporter where
  client : Client
  excludeTypes : GoSet

def newExporter (client : Client) (excludeTypes : GoSet) : Except GoError exporter :=
  .ok { client := client, excludeTypes := excludeTypes }

/-- The `for _, job := range jobs` loop of `exportJobs`, started with the map
built so far. -/
def exportJobsLoop (e : exporter) (ns : String) :
    List JobListStub → GoMap JobData → Traced (GoMap JobData)
  | [], jmap => ⟨.ok jmap, []⟩
  | job :: rest, jmap =>
    match e.client.GetJob job.ID ns with
    | .error err =>
      ⟨.error (Errorf ("error getting job " ++ job.Name ++ " (" ++ job.ID ++
          ") definition in namespace " ++ ns ++ ": ") err),
        [Call.GetJob job.ID ns]⟩
    | .ok definition =>
      let r := exportJobsLoop e ns rest
        (Finmap.insert job.ID { Info := job, Definition := definition } jmap)
      ⟨r.ret, Call.GetJob job.ID ns :: r.calls⟩

def exporter.exportJobs (e : exporter) (ns : String) : Traced (GoMap JobData) :=
  match e.client.ListJobs ns with
  | .error err =>
    ⟨.error (Errorf ("error listing jobs for namespace " ++ ns ++ ": ") err),
      [Call.ListJobs ns]⟩
  | .ok jobs =>
    let r := exportJobsLoop e ns jobs ∅
    ⟨r.ret, Call.ListJobs ns :: r.calls⟩

def exporter.exportNamespace (e : exporter) (ns : String) : Traced NamespacedData :=
  let r := e.exportJobs ns
  match r.ret with
  | .error err =>
    ⟨.error (Errorf ("error exporting jobs for namespace " ++ ns ++ ": ") err), r.calls⟩
  | .ok jobs => ⟨.ok { Jobs := jobs }, r.calls⟩

/-- The `for _, namespace := range namespaces` loop of `exportNamespaces`,
started with the map built so far. -/
def exportNamespacesLoop (e : exporter) :
    List Namespace → GoMap NamespaceData → Traced (GoMap NamespaceData)
  | [], nmap => ⟨.ok nmap, []⟩
  | nsp :: rest, nmap =>
    let r := e.exportNamespace nsp.Name
    match r.ret with
    | .error err =>
      ⟨.error (Errorf ("error exporting namespace " ++ nsp.Name ++ ": ") err), r.calls⟩
    | .ok ndata =>
      let r' := exportNamespacesLoop e rest
        (Finmap.insert nsp.Name { Definition := nsp, toNamespacedData := ndata } nmap)
      ⟨r'.ret, r.calls ++ r'.calls⟩

def exporter.exportNamespaces (e : exporter) : Traced (GoMap NamespaceData) :=
  match e.client.ListNamespaces with
  | .error err =>
    ⟨.error (Errorf "error listing namespaces: " err), [Call.ListNamespaces]⟩
  | .ok namespaces =>
    let r := exportNamespacesLoop e namespaces ∅
    ⟨r.ret, Call.ListNamespaces :: r.calls⟩

def exporter.Export (e : exporter) : Traced Data :=
  let r := e.exportNamespaces
  match r.ret with
  | .error err => ⟨.error (Errorf "error exporting partitions: " err), r.calls⟩
  | .ok ndata => ⟨.ok { Namespaces := ndata }, r.calls⟩

def Export (client : Client) (excludeTypes : GoSet) : Traced Data :=
  match newExporter client excludeTypes with
  | .error err => ⟨.error err, []⟩
  | .ok e => e.Export

/-! ## commands/flags.go and commands/export.go: the exclusion flag -/

/-- The slice `dataTypes` of `commands/export.go`. -/
def dataTypes : List String := ["catalog", "acls", "config-entries"]

structure setValue where
  values : GoSet
  allowed : GoSet
  deriving DecidableEq

/-- The method `init`; it overwrites both maps of the receiver. -/
def setValue.init (allowed : List String) : setValue :=
  { values := ∅, allowed := allowed.foldl (fun acc v => insert v acc) ∅ }

/-- The keys of the map are collected in the unspecified order of `range`, then
ordered by `slices.Sort` and joined.  Go orders strings bytewise, which on UTF-8
text is the lexicographic order by code point, the order of `String`. -/
def sliceString (valueMap : GoSet) : String :=
  ", ".intercalate (valueMap.sort (· ≤ ·))

/-- The method `Set`.  It returns the receiver after the call together with the
returned error (`none` for `nil`).  `quote` is the rendering of the `%q` verb of
`fmt` (`strconv.Quote`, of the Go standard library). -/
def setValue.Set (quote : String → String) (s : setValue) (v : String) :
    setValue × Option GoError :=
  if v ∈ s.allowed then
    ({ s with values := insert v s.values }, none)
  else
    (s, some (GoError.errorString ("Value " ++ quote v ++
      " is not allowed. Allowed values are: " ++ sliceString s.allowed)))

/-- The method `String`. -/
def setValue.String (s : setValue) : String :=
  sliceString s.values

/-- The rendering of `%q` on a string that needs no escaping (printable
characters other than the double quote and the backslash): the string between
double quotes. -/
def quotePlain (v : String) : String :=
  String.singleton (Char.ofNat 34) ++ v ++ String.singleton (Char.ofNat 34)

/-! ## Concrete clients used to exercise the definitions -/

/-- The backend of the worked scenario: namespace `default` with the single job
`job-1` named `web`. -/
def scenarioClient : Client where
  ListNamespaces := .ok [{ Name := "default", Description := "Default shared namespace" }]
  ListJobs := fun ns =>
    if ns = "default" then .ok [{ ID := "job-1", Name := "web", Status := "running" }]
    else .ok []
  GetJob := fun id _ => .ok { ID := id, Name := "web", Spec := "TaskGroups" }

/-- The document expected for `scenarioClient`. -/
def scenarioData : Data where
  Namespaces := Finmap.singleton "default"
    { Definition := { Name := "default", Description := "Default shared namespace" },
      Jobs := Finmap.singleton "job-1"
        { Info := { ID := "job-1", Name := "web", Status := "running" },
          Definition := { ID := "job-1", Name := "web", Spec := "TaskGroups" } } }

/-- A backend whose second namespace cannot list its jobs. -/
def failingListClient : Client where
  ListNamespaces := .ok [{ Name := "default", Description := "" },
    { Name := "broken", Description := "" }, { Name := "later", Description := "" }]
  ListJobs := fun ns =>
    if ns = "default" then .ok [{ ID := "job-1", Name := "web", Status := "running" }]
    else if ns = "broken" then .error (GoError.errorString "connection refused")
    else .ok []
  GetJob := fun id _ => .ok { ID := id, Name := "web", Spec := "TaskGroups" }

/-- A backend whose namespace `apps` lists three jobs, the second of which
cannot be fetched. -/
def failingFetchClient : Client where
  ListNamespaces := .ok [{ Name := "default", Description := "" },
    { Name := "apps", Description := "" }]
  ListJobs := fun ns =>
    if ns = "apps" then .ok [{ ID := "job-a", Name := "api", Status := "running" },
      { ID := "job-b", Name := "batch", Status := "dead" },
      { ID := "job-c", Name := "cache", Status := "running" }]
    else .ok []
  GetJob := fun id _ =>
    if id = "job-b" then .error (GoError.errorString "unexpected EOF")
    else .ok { ID := id, Name := "", Spec := "" }

/-- A backend that cannot be reached. -/
def unreachableClient : Client where
  ListNamespaces := .error (GoError.errorString "connection refused")
  ListJobs := fun _ => .error (GoError.errorString "connection refused")
  GetJob := fun _ _ => .error (GoError.errorString "connection refused")

/-- A backend without namespaces. -/
def emptyClient : Client where
  ListNamespaces := .ok []
  ListJobs := fun _ => .ok []
  GetJob := fun id _ => .ok { ID := id, Name := "", Spec := "" }

/-- A backend that lists the namespace `dev` twice. -/
def duplicateClient : Client where
  ListNamespaces := .ok [{ Name := "dev", Description := "first" },
    { Name := "dev", Description := "second" }]
  ListJobs := fun _ => .ok []
  GetJob := fun id _ => .ok { ID := id, Name := "", Spec := "" }

/-- The document `Export` returns for `duplicateClient`. -/
def duplicateData : Data where
  Namespaces := Finmap.singleton "dev"
    { Definition := { Name := "dev", Description := "second" }, Jobs := ∅ }

/-- A backend with two namespaces, the first of which holds two jobs. -/
def orderedClient : Client where
  ListNamespaces := .ok [{ Name := "default", Description := "" },
    { Name := "apps", Description := "" }]
  ListJobs := fun ns =>
    if ns = "default" then .ok [{ ID := "job-1", Name := "web", Status := "running" },
      { ID := "job-2", Name := "db", Status := "running" }]
    else .ok []
  GetJob := fun id _ => .ok { ID := id, Name := "", Spec := "TaskGroups" }

/-- The backend `orderedClient` with both listings returned in reverse order. -/
def reversedClient : Client where
  ListNamespaces := .ok [{ Name := "apps", Description := "" },
    { Name := "default", Description := "" }]
  ListJobs := fun ns =>
    if ns = "default" then .ok [{ ID := "job-2", Name := "db", Status := "running" },
      { ID := "job-1", Name := "web", Status := "running" }]
    else .ok []
  GetJob := fun id _ => .ok { ID := id, Name := "", Spec := "TaskGroups" }

/-! ## Errors -/

theorem GoError.mem_chain_self (err : GoError) : err ∈ err.chain := by
  cases err <;> simp [GoError.chain]

theorem Errorf_Error (pre : String) (err : GoError) :
    (Errorf pre err).Error = pre ++ err.Error := rfl

/-- An error built with `%w` wraps everything its operand wraps. -/
theorem mem_chain_Errorf (pre : String) (err inner : GoError) (h : inner ∈ err.chain) :
    inner ∈ (Errorf pre err).chain := by
  simp [Errorf, GoError.chain, h]

/-! ## The job loop -/

theorem exportJobsLoop_cons_ok (e : exporter) (ns : String) (job : JobListStub)
    (rest : List JobListStub) (jmap : GoMap JobData) (d : Job)
    (h : e.client.GetJob job.ID ns = .ok d) :
    exportJobsLoop e ns (job :: rest) jmap =
      ⟨(exportJobsLoop e ns rest (Finmap.insert job.ID ⟨job, d⟩ jmap)).ret,
        Call.GetJob job.ID ns ::
          (exportJobsLoop e ns rest (Finmap.insert job.ID ⟨job, d⟩ jmap)).calls⟩ := by
  simp [exportJobsLoop, h]

theorem exportJobsLoop_cons_error (e : exporter) (ns : String) (job : JobListStub)
    (rest : List JobListStub) (jmap : GoMap JobData) (err : GoError)
    (h : e.client.GetJob job.ID ns = .error err) :
    exportJobsLoop e ns (job :: rest) jmap =
      ⟨.error (Errorf ("error getting job " ++ job.Name ++ " (" ++ job.ID ++
          ") definition in namespace " ++ ns ++ ": ") err),
        [Call.GetJob job.ID ns]⟩ := by
  simp [exportJobsLoop, h]

/-- A job loop that returns a map fetched every listed job. -/
theorem exportJobsLoop_ok_fetched (e : exporter) (ns : String) :
    ∀ (jobs : List JobListStub) (jmap m : GoMap JobData),
      (exportJobsLoop e ns jobs jmap).ret = .ok m →
      ∀ j ∈ jobs, ∃ d, e.client.GetJob j.ID ns = .ok d := by
  intro jobs
  induction jobs with
  | nil => intro _ _ _ j hj; simp at hj
  | cons job rest ih =>
    intro jmap m h j hj
    cases hg : e.client.GetJob job.ID ns with
    | error err => rw [exportJobsLoop_cons_error e ns job rest jmap err hg] at h; simp at h
    | ok d =>
      rw [exportJobsLoop_cons_ok e ns job rest jmap d hg] at h
      rcases List.mem_cons.mp hj with rfl | hj
      · exact ⟨d, hg⟩
      · exact ih _ m h j hj

/-- A job loop whose fetches all succeed returns a map. -/
theorem exportJobsLoop_total (e : exporter) (ns : String) :
    ∀ (jobs : List JobListStub) (jmap : GoMap JobData),
      (∀ j ∈ jobs, ∃ d, e.client.GetJob j.ID ns = .ok d) →
      ∃ m, (exportJobsLoop e ns jobs jmap).ret = .ok m := by
  intro jobs
  induction jobs with
  | nil => intro jmap _; exact ⟨jmap, rfl⟩
  | cons job rest ih =>
    intro jmap h
    obtain ⟨d, hd⟩ := h job (List.mem_cons_self _ _)
    rw [exportJobsLoop_cons_ok e ns job rest jmap d hd]
    exact ih _ (fun j hj => h j (List.mem_cons_of_mem _ hj))

/-- The requests of a job loop that returns a map: one fetch per listed job, in
listing order. -/
theorem exportJobsLoop_ok_calls (e : exporter) (ns : String) :
    ∀ (jobs : List JobListStub) (jmap m : GoMap JobData),
      (exportJobsLoop e ns jobs jmap).ret = .ok m →
      (exportJobsLoop e ns jobs jmap).calls = jobs.map (fun j => Call.GetJob j.ID ns) := by
  intro jobs
  induction jobs with
  | nil => intro _ _ _; rfl
  | cons job rest ih =>
    intro jmap m h
    cases hg : e.client.GetJob job.ID ns with
    | error err => rw [exportJobsLoop_cons_error e ns job rest jmap err hg] at h; simp at h
    | ok d =>
      rw [exportJobsLoop_cons_ok e ns job rest jmap d hg] at h ⊢
      simp [ih _ m h]

/-- The keys of the map returned by a job loop. -/
theorem exportJobsLoop_ok_mem (e : exporter) (ns : String) :
    ∀ (jobs : List JobListStub) (jmap m : GoMap JobData),
      (exportJobsLoop e ns jobs jmap).ret = .ok m →
      ∀ k, k ∈ m ↔ k ∈ jmap ∨ k ∈ jobs.map JobListStub.ID := by
  intro jobs
  induction jobs with
  | nil => intro jmap m h k; simp [exportJobsLoop] at h; simp [h]
  | cons job rest ih =>
    intro jmap m h k
    cases hg : e.client.GetJob job.ID ns with
    | error err => rw [exportJobsLoop_cons_error e ns job rest jmap err hg] at h; simp at h
    | ok d =>
      rw [exportJobsLoop_cons_ok e ns job rest jmap d hg] at h
      rw [ih _ m h k, Finmap.mem_insert]
      simp only [List.map_cons, List.mem_cons]
      tauto

/-- Every entry of the map returned by a job loop was there at the start or is
a listed summary under its own ID together with the fetched definition. -/
theorem exportJobsLoop_ok_lookup (e : exporter) (ns : String) :
    ∀ (jobs : List JobListStub) (jmap m : GoMap JobData),
      (exportJobsLoop e ns jobs jmap).ret = .ok m →
      ∀ k jd, m.lookup k = some jd →
        jmap.lookup k = some jd ∨
          (jd.Info ∈ jobs ∧ jd.Info.ID = k ∧ e.client.GetJob k ns = .ok jd.Definition) := by
  intro jobs
  induction jobs with
  | nil => intro jmap m h k jd hk; simp [exportJobsLoop] at h; subst h; exact Or.inl hk
  | cons job rest ih =>
    intro jmap m h k jd hk
    cases hg : e.client.GetJob job.ID ns with
    | error err => rw [exportJobsLoop_cons_error e ns job rest jmap err hg] at h; simp at h
    | ok d =>
      rw [exportJobsLoop_cons_ok e ns job rest jmap d hg] at h
      rcases ih _ m h k jd hk with h1 | ⟨h1, h2, h3⟩
      · by_cases hkj : k = job.ID
        · subst hkj
          rw [Finmap.lookup_insert] at h1
          have hjd : jd = ⟨job, d⟩ := (Option.some.inj h1).symm
          subst hjd
          exact Or.inr ⟨List.mem_cons_self _ _, rfl, hg⟩
        · rw [Finmap.lookup_insert_of_ne _ hkj] at h1
          exact Or.inl h1
      · exact Or.inr ⟨List.mem_cons_of_mem _ h1, h2, h3⟩

/-- A key that is no listed job ID keeps its entry. -/
theorem exportJobsLoop_ok_lookup_of_not_mem (e : exporter) (ns : String) :
    ∀ (jobs : List JobListStub) (jmap m : GoMap JobData),
      (exportJobsLoop e ns jobs jmap).ret = .ok m →
      ∀ k, k ∉ jobs.map JobListStub.ID → m.lookup k = jmap.lookup k := by
  intro jobs
  induction jobs with
  | nil => intro jmap m h k _; simp [exportJobsLoop] at h; subst h; rfl
  | cons job rest ih =>
    intro jmap m h k hk
    cases hg : e.client.GetJob job.ID ns with
    | error err => rw [exportJobsLoop_cons_error e ns job rest jmap err hg] at h; simp at h
    | ok d =>
      rw [exportJobsLoop_cons_ok e ns job rest jmap d hg] at h
      simp only [List.map_cons, List.mem_cons, not_or] at hk
      rw [ih _ m h k hk.2, Finmap.lookup_insert_of_ne _ hk.1]

/-- With pairwise distinct IDs every listed job is the entry under its ID. -/
theorem exportJobsLoop_ok_lookup_of_nodup (e : exporter) (ns : String) :
    ∀ (jobs : List JobListStub) (jmap m : GoMap JobData),
      (exportJobsLoop e ns jobs jmap).ret = .ok m →
      (jobs.map JobListStub.ID).Nodup →
      ∀ j ∈ jobs, ∀ d, e.client.GetJob j.ID ns = .ok d → m.lookup j.ID = some ⟨j, d⟩ := by
  intro jobs
  induction jobs with
  | nil => intro _ _ _ _ j hj; simp at hj
  | cons job rest ih =>
    intro jmap m h hnd j hj d hd
    cases hg : e.client.GetJob job.ID ns with
    | error err => rw [exportJobsLoop_cons_error e ns job rest jmap err hg] at h; simp at h
    | ok d0 =>
      rw [exportJobsLoop_cons_ok e ns job rest jmap d0 hg] at h
      rw [List.map_cons, List.nodup_cons] at hnd
      rcases List.mem_cons.mp hj with rfl | hj
      · rw [exportJobsLoop_ok_lookup_of_not_mem e ns rest _ m h _ hnd.1, Finmap.lookup_insert]
        rw [hg] at hd
        cases hd
        rfl
      · exact ih _ m h hnd.2 j hj d hd

/-- The first failing fetch ends the job loop with the wrapped error, after one
fetch for each earlier job and the failing one. -/
theorem exportJobsLoop_first_error (e : exporter) (ns : String) (job : JobListStub)
    (post : List JobListStub) (err : GoError)
    (herr : e.client.GetJob job.ID ns = .error err) :
    ∀ (pre : List JobListStub) (jmap : GoMap JobData),
      (∀ j ∈ pre, ∃ d, e.client.GetJob j.ID ns = .ok d) →
      exportJobsLoop e ns (pre ++ job :: post) jmap =
        ⟨.error (Errorf ("error getting job " ++ job.Name ++ " (" ++ job.ID ++
            ") definition in namespace " ++ ns ++ ": ") err),
          pre.map (fun j => Call.GetJob j.ID ns) ++ [Call.GetJob job.ID ns]⟩ := by
  intro pre
  induction pre with
  | nil => intro jmap _; exact exportJobsLoop_cons_error e ns job post jmap err herr
  | cons j rest ih =>
    intro jmap h
    obtain ⟨d, hd⟩ := h j (List.mem_cons_self _ _)
    rw [List.cons_append, exportJobsLoop_cons_ok e ns j _ jmap d hd,
      ih _ (fun j' hj' => h j' (List.mem_cons_of_mem _ hj'))]
    simp

/-! ## One namespace -/

theorem exportNamespace_of_list_error (e : exporter) (ns : String) (err : GoError)
    (h : e.client.ListJobs ns = .error err) :
    e.exportNamespace ns =
      ⟨.error (Errorf ("error exporting jobs for namespace " ++ ns ++ ": ")
          (Errorf ("error listing jobs for namespace " ++ ns ++ ": ") err)),
        [Call.ListJobs ns]⟩ := by
  simp [exporter.exportNamespace, exporter.exportJobs, h]

theorem exportNamespace_of_list_ok (e : exporter) (ns : String) (jobs : List JobListStub)
    (h : e.client.ListJobs ns = .ok jobs) :
    e.exportNamespace ns =
      ⟨match (exportJobsLoop e ns jobs ∅).ret with
        | .error err =>
          .error (Errorf ("error exporting jobs for namespace " ++ ns ++ ": ") err)
        | .ok jmap => .ok { Jobs := jmap },
        Call.ListJobs ns :: (exportJobsLoop e ns jobs ∅).calls⟩ := by
  simp only [exporter.exportNamespace, exporter.exportJobs, h]
  cases (exportJobsLoop e ns jobs ∅).ret <;> rfl

/-- A namespace that is exported was listed and its job loop returned the map
that is stored; the requests are the listing and one fetch per listed job. -/
theorem exportNamespace_ok_inv (e : exporter) (ns : String) (nd : NamespacedData)
    (h : (e.exportNamespace ns).ret = .ok nd) :
    ∃ jobs, e.client.ListJobs ns = .ok jobs ∧
      (exportJobsLoop e ns jobs ∅).ret = .ok nd.Jobs ∧
      (e.exportNamespace ns).calls =
        Call.ListJobs ns :: jobs.map (fun j => Call.GetJob j.ID ns) := by
  cases hl : e.client.ListJobs ns with
  | error err => rw [exportNamespace_of_list_error e ns err hl] at h; simp at h
  | ok jobs =>
    rw [exportNamespace_of_list_ok e ns jobs hl] at h ⊢
    refine ⟨jobs, rfl, ?_⟩
    cases hr : (exportJobsLoop e ns jobs ∅).ret with
    | error err => rw [hr] at h; simp at h
    | ok jmap =>
      rw [hr] at h
      simp only [Except.ok.injEq] at h
      subst h
      exact ⟨rfl, by simp [exportJobsLoop_ok_calls e ns jobs ∅ jmap hr]⟩

/-- A namespace whose listing and fetches all succeed is exported. -/
theorem exportNamespace_total (e : exporter) (ns : String) (jobs : List JobListStub)
    (hl : e.client.ListJobs ns = .ok jobs)
    (hg : ∀ j ∈ jobs, ∃ d, e.client.GetJob j.ID ns = .ok d) :
    ∃ nd, (e.exportNamespace ns).ret = .ok nd := by
  obtain ⟨m, hm⟩ := exportJobsLoop_total e ns jobs ∅ hg
  rw [exportNamespace_of_list_ok e ns jobs hl]
  exact ⟨{ Jobs := m }, by simp [hm]⟩

/-! ## The namespace loop -/

theorem exportNamespacesLoop_cons_ok (e : exporter) (nsp : Namespace)
    (rest : List Namespace) (nmap : GoMap NamespaceData) (nd : NamespacedData)
    (h : (e.exportNamespace nsp.Name).ret = .ok nd) :
    exportNamespacesLoop e (nsp :: rest) nmap =
      ⟨(exportNamespacesLoop e rest
          (Finmap.insert nsp.Name { Definition := nsp, toNamespacedData := nd } nmap)).ret,
        (e.exportNamespace nsp.Name).calls ++
          (exportNamespacesLoop e rest
            (Finmap.insert nsp.Name { Definition := nsp, toNamespacedData := nd } nmap)).calls⟩ := by
  simp [exportNamespacesLoop, h]

theorem exportNamespacesLoop_cons_error (e : exporter) (nsp : Namespace)
    (rest : List Namespace) (nmap : GoMap NamespaceData) (err : GoError)
    (h : (e.exportNamespace nsp.Name).ret = .error err) :
    exportNamespacesLoop e (nsp :: rest) nmap =
      ⟨.error (Errorf ("error exporting namespace " ++ nsp.Name ++ ": ") err),
        (e.exportNamespace nsp.Name).calls⟩ := by
  simp [exportNamespacesLoop, h]

theorem exportNamespacesLoop_ok_exported (e : exporter) :
    ∀ (l : List Namespace) (nmap m : GoMap NamespaceData),
      (exportNamespacesLoop e l nmap).ret = .ok m →
      ∀ nsp ∈ l, ∃ nd, (e.exportNamespace nsp.Name).ret = .ok nd := by
  intro l
  induction l with
  | nil => intro _ _ _ nsp hn; simp at hn
  | cons a rest ih =>
    intro nmap m h nsp hn
    cases hg : (e.exportNamespace a.Name).ret with
    | error err => rw [exportNamespacesLoop_cons_error e a rest nmap err hg] at h; simp at h
    | ok nd =>
      rw [exportNamespacesLoop_cons_ok e a rest nmap nd hg] at h
      rcases List.mem_cons.mp hn with rfl | hn
      · exact ⟨nd, hg⟩
      · exact ih _ m h nsp hn

theorem exportNamespacesLoop_total (e : exporter) :
    ∀ (l : List Namespace) (nmap : GoMap NamespaceData),
      (∀ nsp ∈ l, ∃ nd, (e.exportNamespace nsp.Name).ret = .ok nd) →
      ∃ m, (exportNamespacesLoop e l nmap).ret = .ok m := by
  intro l
  induction l with
  | nil => intro nmap _; exact ⟨nmap, rfl⟩
  | cons a rest ih =>
    intro nmap h
    obtain ⟨nd, hnd⟩ := h a (List.mem_cons_self _ _)
    rw [exportNamespacesLoop_cons_ok e a rest nmap nd hnd]
    exact ih _ (fun n hn => h n (List.mem_cons_of_mem _ hn))

/-- The requests of a namespace loop that returns a map: those of each listed
namespace, in listing order. -/
theorem exportNamespacesLoop_ok_calls (e : exporter) :
    ∀ (l : List Namespace) (nmap m : GoMap NamespaceData),
      (exportNamespacesLoop e l nmap).ret = .ok m →
      (exportNamespacesLoop e l nmap).calls =
        l.flatMap (fun nsp => (e.exportNamespace nsp.Name).calls) := by
  intro l
  induction l with
  | nil => intro _ _ _; rfl
  | cons a rest ih =>
    intro nmap m h
    cases hg : (e.exportNamespace a.Name).ret with
    | error err => rw [exportNamespacesLoop_cons_error e a rest nmap err hg] at h; simp at h
    | ok nd =>
      rw [exportNamespacesLoop_cons_ok e a rest nmap nd hg] at h ⊢
      simp [ih _ m h]

theorem exportNamespacesLoop_ok_mem (e : exporter) :
    ∀ (l : List Namespace) (nmap m : GoMap NamespaceData),
      (exportNamespacesLoop e l nmap).ret = .ok m →
      ∀ k, k ∈ m ↔ k ∈ nmap ∨ k ∈ l.map Namespace.Name := by
  intro l
  induction l with
  | nil => intro nmap m h k; simp [exportNamespacesLoop] at h; simp [h]
  | cons a rest ih =>
    intro nmap m h k
    cases hg : (e.exportNamespace a.Name).ret with
    | error err => rw [exportNamespacesLoop_cons_error e a rest nmap err hg] at h; simp at h
    | ok nd =>
      rw [exportNamespacesLoop_cons_ok e a rest nmap nd hg] at h
      rw [ih _ m h k, Finmap.mem_insert]
      simp only [List.map_cons, List.mem_cons]
      tauto

/-- Every entry of the map returned by a namespace loop was there at the start
or holds a listed record under its own name together with what exporting that
name returned. -/
theorem exportNamespacesLoop_ok_lookup (e : exporter) :
    ∀ (l : List Namespace) (nmap m : GoMap NamespaceData),
      (exportNamespacesLoop e l nmap).ret = .ok m →
      ∀ k entry, m.lookup k = some entry →
        nmap.lookup k = some entry ∨
          (entry.Definition ∈ l ∧ entry.Definition.Name = k ∧
            (e.exportNamespace k).ret = .ok entry.toNamespacedData) := by
  intro l
  induction l with
  | nil => intro nmap m h k entry hk; simp [exportNamespacesLoop] at h; subst h; exact Or.inl hk
  | cons a rest ih =>
    intro nmap m h k entry hk
    cases hg : (e.exportNamespace a.Name).ret with
    | error err => rw [exportNamespacesLoop_cons_error e a rest nmap err hg] at h; simp at h
    | ok nd =>
      rw [exportNamespacesLoop_cons_ok e a rest nmap nd hg] at h
      rcases ih _ m h k entry hk with h1 | ⟨h1, h2, h3⟩
      · by_cases hka : k = a.Name
        · subst hka
          rw [Finmap.lookup_insert] at h1
          have hent : entry = { Definition := a, toNamespacedData := nd } :=
            (Option.some.inj h1).symm
          subst hent
          exact Or.inr ⟨List.mem_cons_self _ _, rfl, hg⟩
        · rw [Finmap.lookup_insert_of_ne _ hka] at h1
          exact Or.inl h1
      · exact Or.inr ⟨List.mem_cons_of_mem _ h1, h2, h3⟩

theorem exportNamespacesLoop_ok_lookup_of_not_mem (e : exporter) :
    ∀ (l : List Namespace) (nmap m : GoMap NamespaceData),
      (exportNamespacesLoop e l nmap).ret = .ok m →
      ∀ k, k ∉ l.map Namespace.Name → m.lookup k = nmap.lookup k := by
  intro l
  induction l with
  | nil => intro nmap m h k _; simp [exportNamespacesLoop] at h; subst h; rfl
  | cons a rest ih =>
    intro nmap m h k hk
    cases hg : (e.exportNamespace a.Name).ret with
    | error err => rw [exportNamespacesLoop_cons_error e a rest nmap err hg] at h; simp at h
    | ok nd =>
      rw [exportNamespacesLoop_cons_ok e a rest nmap nd hg] at h
      simp only [List.map_cons, List.mem_cons, not_or] at hk
      rw [ih _ m h k hk.2, Finmap.lookup_insert_of_ne _ hk.1]

theorem exportNamespacesLoop_ok_lookup_of_nodup (e : exporter) :
    ∀ (l : List Namespace) (nmap m : GoMap NamespaceData),
      (exportNamespacesLoop e l nmap).ret = .ok m →
      (l.map Namespace.Name).Nodup →
      ∀ nsp ∈ l, ∀ nd, (e.exportNamespace nsp.Name).ret = .ok nd →
        m.lookup nsp.Name = some { Definition := nsp, toNamespacedData := nd } := by
  intro l
  induction l with
  | nil => intro _ _ _ _ nsp hn; simp at hn
  | cons a rest ih =>
    intro nmap m h hnd nsp hn nd hd
    cases hg : (e.exportNamespace a.Name).ret with
    | error err => rw [exportNamespacesLoop_cons_error e a rest nmap err hg] at h; simp at h
    | ok nd0 =>
      rw [exportNamespacesLoop_cons_ok e a rest nmap nd0 hg] at h
      rw [List.map_cons, List.nodup_cons] at hnd
      rcases List.mem_cons.mp hn with rfl | hn
      · rw [exportNamespacesLoop_ok_lookup_of_not_mem e rest _ m h _ hnd.1,
          Finmap.lookup_insert]
        rw [hg] at hd
        cases hd
        rfl
      · exact ih _ m h hnd.2 nsp hn nd hd

/-- The first namespace that fails to export ends the namespace loop with the
wrapped error, after the requests of the earlier namespaces and its own. -/
theorem exportNamespacesLoop_first_error (e : exporter) (nsp : Namespace)
    (post : List Namespace) (err : GoError)
    (herr : (e.exportNamespace nsp.Name).ret = .error err) :
    ∀ (pre : List Namespace) (nmap : GoMap NamespaceData),
      (∀ p ∈ pre, ∃ nd, (e.exportNamespace p.Name).ret = .ok nd) →
      exportNamespacesLoop e (pre ++ nsp :: post) nmap =
        ⟨.error (Errorf ("error exporting namespace " ++ nsp.Name ++ ": ") err),
          pre.flatMap (fun p => (e.exportNamespace p.Name).calls) ++
            (e.exportNamespace nsp.Name).calls⟩ := by
  intro pre
  induction pre with
  | nil => intro nmap _; exact exportNamespacesLoop_cons_error e nsp post nmap err herr
  | cons a rest ih =>
    intro nmap h
    obtain ⟨nd, hnd⟩ := h a (List.mem_cons_self _ _)
    rw [List.cons_append, exportNamespacesLoop_cons_ok e a _ nmap nd hnd,
      ih _ (fun p hp => h p (List.mem_cons_of_mem _ hp))]
    simp

/-! ## The whole export -/

theorem Export_of_list_error (client : Client) (excludeTypes : GoSet) (err : GoError)
    (h : client.ListNamespaces = .error err) :
    Export client excludeTypes =
      ⟨.error (Errorf "error exporting partitions: "
          (Errorf "error listing namespaces: " err)),
        [Call.ListNamespaces]⟩ := by
  simp [Export, newExporter, exporter.Export, exporter.exportNamespaces, h]

theorem Export_of_list_ok (client : Client) (excludeTypes : GoSet) (l : List Namespace)
    (h : client.ListNamespaces = .ok l) :
    Export client excludeTypes =
      ⟨match (exportNamespacesLoop ⟨client, excludeTypes⟩ l ∅).ret with
        | .error err => .error (Errorf "error exporting partitions: " err)
        | .ok nmap => .ok { Namespaces := nmap },
        Call.ListNamespaces :: (exportNamespacesLoop ⟨client, excludeTypes⟩ l ∅).calls⟩ := by
  simp only [Export, newExporter, exporter.Export, exporter.exportNamespaces, h]
  cases (exportNamespacesLoop ⟨client, excludeTypes⟩ l ∅).ret <;> rfl

/-- A successful export listed the namespaces and its namespace loop returned
the map of the document. -/
theorem Export_ok_inv (client : Client) (excludeTypes : GoSet) (data : Data)
    (h : (Export client excludeTypes).ret = .ok data) :
    ∃ l, client.ListNamespaces = .ok l ∧
      (exportNamespacesLoop ⟨client, excludeTypes⟩ l ∅).ret = .ok data.Namespaces ∧
      (Export client excludeTypes).calls =
        Call.ListNamespaces ::
          l.flatMap (fun nsp =>
            (exporter.exportNamespace ⟨client, excludeTypes⟩ nsp.Name).calls) := by
  cases hl : client.ListNamespaces with
  | error err => rw [Export_of_list_error client excludeTypes err hl] at h; simp at h
  | ok l =>
    rw [Export_of_list_ok client excludeTypes l hl] at h ⊢
    refine ⟨l, rfl, ?_⟩
    cases hr : (exportNamespacesLoop ⟨client, excludeTypes⟩ l ∅).ret with
    | error err => rw [hr] at h; simp at h
    | ok nmap =>
      rw [hr] at h
      simp only [Except.ok.injEq] at h
      subst h
      exact ⟨rfl, by simp [exportNamespacesLoop_ok_calls _ l ∅ nmap hr]⟩

/-- An export whose requests all succeed returns a document. -/
theorem Export_total (client : Client) (excludeTypes : GoSet) (l : List Namespace)
    (hl : client.ListNamespaces = .ok l)
    (hj : ∀ nsp ∈ l, ∃ jobs, client.ListJobs nsp.Name = .ok jobs ∧
      ∀ j ∈ jobs, ∃ d, client.GetJob j.ID nsp.Name = .ok d) :
    ∃ data, (Export client excludeTypes).ret = .ok data := by
  have hall : ∀ nsp ∈ l, ∃ nd,
      (exporter.exportNamespace ⟨client, excludeTypes⟩ nsp.Name).ret = .ok nd := by
    intro nsp hn
    obtain ⟨jobs, hjl, hjg⟩ := hj nsp hn
    exact exportNamespace_total ⟨client, excludeTypes⟩ nsp.Name jobs hjl hjg
  obtain ⟨m, hm⟩ := exportNamespacesLoop_total ⟨client, excludeTypes⟩ l ∅ hall
  rw [Export_of_list_ok client excludeTypes l hl]
  exact ⟨{ Namespaces := m }, by simp [hm]⟩

/-! ## Properties of the export -/

/-- C1 (completeness): when the namespace listing succeeds, every listed
namespace lists its jobs and every listed job is fetched, `Export` returns a
document without error; the keys of its namespace mapping are exactly the listed
names, and under each listed name the keys of the jobs mapping are exactly the
job IDs that the job listing of that name returned. -/
theorem Export_complete (client : Client) (excludeTypes : GoSet) (namespaces : List Namespace)
    (hl : client.ListNamespaces = .ok namespaces)
    (hj : ∀ nsp ∈ namespaces, ∃ jobs, client.ListJobs nsp.Name = .ok jobs ∧
      ∀ j ∈ jobs, ∃ d, client.GetJob j.ID nsp.Name = .ok d) :
    ∃ data, (Export client excludeTypes).ret = .ok data ∧
      data.Namespaces.keys = (namespaces.map Namespace.Name).toFinset ∧
      ∀ n ∈ namespaces.map Namespace.Name, ∃ entry jobs,
        data.Namespaces.lookup n = some entry ∧ client.ListJobs n = .ok jobs ∧
        entry.Jobs.keys = (jobs.map JobListStub.ID).toFinset := by
  obtain ⟨data, hd⟩ := Export_total client excludeTypes namespaces hl hj
  obtain ⟨l, hl', hloop, -⟩ := Export_ok_inv client excludeTypes data hd
  rw [hl] at hl'
  cases hl'
  have hmem := exportNamespacesLoop_ok_mem _ namespaces ∅ _ hloop
  refine ⟨data, hd, ?_, ?_⟩
  · ext k
    rw [Finmap.mem_keys, hmem k]
    simp [Finmap.not_mem_empty]
  · intro n hn
    have hk : n ∈ data.Namespaces := (hmem n).mpr (Or.inr hn)
    obtain ⟨entry, hentry⟩ := Finmap.mem_iff.mp hk
    rcases exportNamespacesLoop_ok_lookup _ namespaces ∅ _ hloop n entry hentry with
      h0 | ⟨-, -, hexp⟩
    · simp [Finmap.lookup_empty] at h0
    · obtain ⟨jobs, hjl, hjloop, -⟩ := exportNamespace_ok_inv _ n _ hexp
      refine ⟨entry, jobs, hentry, hjl, ?_⟩
      ext k
      rw [Finmap.mem_keys, exportJobsLoop_ok_mem _ n jobs ∅ _ hjloop k]
      simp [Finmap.not_mem_empty]

theorem Export_complete_witness :
    ∃ data, (Export scenarioClient ∅).ret = .ok data ∧
      data.Namespaces.keys = {"default"} ∧
      ∀ n ∈ ["default"], ∃ entry jobs,
        data.Namespaces.lookup n = some entry ∧ scenarioClient.ListJobs n = .ok jobs ∧
        entry.Jobs.keys = (jobs.map JobListStub.ID).toFinset :=
  Export_complete scenarioClient ∅
    [{ Name := "default", Description := "Default shared namespace" }] rfl
    (by
      intro nsp hn
      rw [List.mem_singleton] at hn
      subst hn
      refine ⟨[{ ID := "job-1", Name := "web", Status := "running" }], rfl, ?_⟩
      intro j _
      exact ⟨_, rfl⟩)

/-- C2 (pass-through fidelity): in the document of a successful `Export`, the
definition stored under a namespace key `n` is one of the records the namespace
listing returned and its name is `n`; the info stored under a job key `j` of
that entry is one of the summaries that the job listing of `n` returned and its
ID is `j`, and the stored job definition is the value the fetch of `j` in `n`
returned. -/
theorem Export_passthrough (client : Client) (excludeTypes : GoSet) (data : Data)
    (h : (Export client excludeTypes).ret = .ok data) :
    ∃ namespaces, client.ListNamespaces = .ok namespaces ∧
      ∀ n entry, data.Namespaces.lookup n = some entry →
        entry.Definition ∈ namespaces ∧ entry.Definition.Name = n ∧
        ∃ jobs, client.ListJobs n = .ok jobs ∧
          ∀ j jd, entry.Jobs.lookup j = some jd →
            jd.Info ∈ jobs ∧ jd.Info.ID = j ∧ client.GetJob j n = .ok jd.Definition := by
  obtain ⟨l, hl, hloop, -⟩ := Export_ok_inv client excludeTypes data h
  refine ⟨l, hl, ?_⟩
  intro n entry hentry
  rcases exportNamespacesLoop_ok_lookup _ l ∅ _ hloop n entry hentry with
    h0 | ⟨hmem, hname, hexp⟩
  · simp [Finmap.lookup_empty] at h0
  · obtain ⟨jobs, hjl, hjloop, -⟩ := exportNamespace_ok_inv _ n _ hexp
    refine ⟨hmem, hname, jobs, hjl, ?_⟩
    intro j jd hjd
    rcases exportJobsLoop_ok_lookup _ n jobs ∅ _ hjloop j jd hjd with h0 | hres
    · simp [Finmap.lookup_empty] at h0
    · exact hres

theorem Export_passthrough_witness :
    ∃ namespaces, scenarioClient.ListNamespaces = .ok namespaces ∧
      ∀ n entry, scenarioData.Namespaces.lookup n = some entry →
        entry.Definition ∈ namespaces ∧ entry.Definition.Name = n ∧
        ∃ jobs, scenarioClient.ListJobs n = .ok jobs ∧
          ∀ j jd, entry.Jobs.lookup j = some jd →
            jd.Info ∈ jobs ∧ jd.Info.ID = j ∧ scenarioClient.GetJob j n = .ok jd.Definition :=
  Export_passthrough scenarioClient ∅ scenarioData rfl

/-- C3 (fail-fast, no partial output): when the namespace listing returns
`pre ++ nsp :: post`, every namespace of `pre` lists its jobs and has them all
fetched, and the job listing of `nsp` fails with `err`, `Export` returns an
error and no document; the text of the error names `nsp` at each level and ends
with the text of `err`. -/
theorem Export_list_jobs_error (client : Client) (excludeTypes : GoSet)
    (pre post : List Namespace) (nsp : Namespace) (err : GoError)
    (hl : client.ListNamespaces = .ok (pre ++ nsp :: post))
    (hpre : ∀ p ∈ pre, ∃ jobs, client.ListJobs p.Name = .ok jobs ∧
      ∀ j ∈ jobs, ∃ d, client.GetJob j.ID p.Name = .ok d)
    (herr : client.ListJobs nsp.Name = .error err) :
    ∃ e, (Export client excludeTypes).ret = .error e ∧
      e.Error = "error exporting partitions: error exporting namespace " ++ nsp.Name ++
        ": error exporting jobs for namespace " ++ nsp.Name ++
        ": error listing jobs for namespace " ++ nsp.Name ++ ": " ++ err.Error := by
  have hpre' : ∀ p ∈ pre, ∃ nd,
      (exporter.exportNamespace ⟨client, excludeTypes⟩ p.Name).ret = .ok nd := by
    intro p hp
    obtain ⟨jobs, hjl, hjg⟩ := hpre p hp
    exact exportNamespace_total ⟨client, excludeTypes⟩ p.Name jobs hjl hjg
  have hns := exportNamespace_of_list_error ⟨client, excludeTypes⟩ nsp.Name err herr
  have hloop := exportNamespacesLoop_first_error ⟨client, excludeTypes⟩ nsp post _
    (by rw [hns]) pre ∅ hpre'
  rw [Export_of_list_ok client excludeTypes _ hl, hloop]
  refine ⟨_, rfl, ?_⟩
  have e1 : "error exporting partitions: error exporting namespace " =
      "error exporting partitions: " ++ "error exporting namespace " := by decide
  have e2 : ": error exporting jobs for namespace " =
      ": " ++ "error exporting jobs for namespace " := by decide
  have e3 : ": error listing jobs for namespace " =
      ": " ++ "error listing jobs for namespace " := by decide
  rw [e1, e2, e3]
  simp only [Errorf_Error, String.append_assoc]

theorem Export_list_jobs_error_witness :
    ∃ e, (Export failingListClient ∅).ret = .error e ∧
      e.Error = "error exporting partitions: error exporting namespace " ++ "broken" ++
        ": error exporting jobs for namespace " ++ "broken" ++
        ": error listing jobs for namespace " ++ "broken" ++ ": " ++ "connection refused" :=
  Export_list_jobs_error failingListClient ∅
    [{ Name := "default", Description := "" }] [{ Name := "later", Description := "" }]
    { Name := "broken", Description := "" } (GoError.errorString "connection refused") rfl
    (by
      intro p hp
      rw [List.mem_singleton] at hp
      subst hp
      refine ⟨[{ ID := "job-1", Name := "web", Status := "running" }], rfl, ?_⟩
      intro j _
      exact ⟨_, rfl⟩)
    rfl

/-- C4 (fetch failure): when the namespace listing returns `pre ++ nsp :: post`,
every namespace of `pre` lists its jobs and has them all fetched, the job
listing of `nsp` returns `jpre ++ job :: jpost`, every job of `jpre` is fetched
and the fetch of `job` fails with `err`, `Export` returns an error and no
document; the error wraps `err` and its text carries the name and the ID of the
job and the name of the namespace. -/
theorem Export_get_job_error (client : Client) (excludeTypes : GoSet)
    (pre post : List Namespace) (nsp : Namespace)
    (jpre jpost : List JobListStub) (job : JobListStub) (err : GoError)
    (hl : client.ListNamespaces = .ok (pre ++ nsp :: post))
    (hpre : ∀ p ∈ pre, ∃ jobs, client.ListJobs p.Name = .ok jobs ∧
      ∀ j ∈ jobs, ∃ d, client.GetJob j.ID p.Name = .ok d)
    (hjl : client.ListJobs nsp.Name = .ok (jpre ++ job :: jpost))
    (hjpre : ∀ j ∈ jpre, ∃ d, client.GetJob j.ID nsp.Name = .ok d)
    (herr : client.GetJob job.ID nsp.Name = .error err) :
    ∃ e, (Export client excludeTypes).ret = .error e ∧ err ∈ e.chain ∧
      e.Error = "error exporting partitions: error exporting namespace " ++ nsp.Name ++
        ": error exporting jobs for namespace " ++ nsp.Name ++
        ": error getting job " ++ job.Name ++ " (" ++ job.ID ++
        ") definition in namespace " ++ nsp.Name ++ ": " ++ err.Error := by
  have hpre' : ∀ p ∈ pre, ∃ nd,
      (exporter.exportNamespace ⟨client, excludeTypes⟩ p.Name).ret = .ok nd := by
    intro p hp
    obtain ⟨jobs, hjl, hjg⟩ := hpre p hp
    exact exportNamespace_total ⟨client, excludeTypes⟩ p.Name jobs hjl hjg
  have hjloop := exportJobsLoop_first_error ⟨client, excludeTypes⟩ nsp.Name job jpost err
    herr jpre ∅ hjpre
  have hns := exportNamespace_of_list_ok ⟨client, excludeTypes⟩ nsp.Name _ hjl
  rw [hjloop] at hns
  have hloop := exportNamespacesLoop_first_error ⟨client, excludeTypes⟩ nsp post _
    (by rw [hns]) pre ∅ hpre'
  rw [Export_of_list_ok client excludeTypes _ hl, hloop]
  refine ⟨_, rfl, ?_, ?_⟩
  · exact mem_chain_Errorf _ _ _ (mem_chain_Errorf _ _ _ (mem_chain_Errorf _ _ _
      (mem_chain_Errorf _ _ _ (GoError.mem_chain_self err))))
  · have e1 : "error exporting partitions: error exporting namespace " =
        "error exporting partitions: " ++ "error exporting namespace " := by decide
    have e2 : ": error exporting jobs for namespace " =
        ": " ++ "error exporting jobs for namespace " := by decide
    have e3 : ": error getting job " = ": " ++ "error getting job " := by decide
    rw [e1, e2, e3]
    simp only [Errorf_Error, String.append_assoc]

theorem Export_get_job_error_witness :
    ∃ e, (Export failingFetchClient ∅).ret = .error e ∧
      GoError.errorString "unexpected EOF" ∈ e.chain ∧
      e.Error = "error exporting partitions: error exporting namespace " ++ "apps" ++
        ": error exporting jobs for namespace " ++ "apps" ++
        ": error getting job " ++ "batch" ++ " (" ++ "job-b" ++
        ") definition in namespace " ++ "apps" ++ ": " ++ "unexpected EOF" :=
  Export_get_job_error failingFetchClient ∅
    [{ Name := "default", Description := "" }] [] { Name := "apps", Description := "" }
    [{ ID := "job-a", Name := "api", Status := "running" }]
    [{ ID := "job-c", Name := "cache", Status := "running" }]
    { ID := "job-b", Name := "batch", Status := "dead" }
    (GoError.errorString "unexpected EOF") rfl
    (by
      intro p hp
      rw [List.mem_singleton] at hp
      subst hp
      exact ⟨[], rfl, by simp⟩)
    rfl
    (by
      intro j hj
      rw [List.mem_singleton] at hj
      subst hj
      exact ⟨_, rfl⟩)
    rfl

/-- C5 (namespace-listing failure): when the namespace listing fails with `err`,
`Export` returns an error and no document; the error wraps `err`, its text is
`error exporting partitions: error listing namespaces: ` followed by the text of
`err`, and the namespace listing is the only request issued (no job listing and
no job fetch). -/
theorem Export_list_namespaces_error (client : Client) (excludeTypes : GoSet) (err : GoError)
    (h : client.ListNamespaces = .error err) :
    ∃ e, (Export client excludeTypes).ret = .error e ∧ err ∈ e.chain ∧
      e.Error = "error exporting partitions: error listing namespaces: " ++ err.Error ∧
      (Export client excludeTypes).calls = [Call.ListNamespaces] := by
  rw [Export_of_list_error client excludeTypes err h]
  refine ⟨_, rfl, ?_, ?_, rfl⟩
  · exact mem_chain_Errorf _ _ _ (mem_chain_Errorf _ _ _ (GoError.mem_chain_self err))
  · have e1 : "error exporting partitions: error listing namespaces: " =
        "error exporting partitions: " ++ "error listing namespaces: " := by decide
    rw [e1]
    simp only [Errorf_Error, String.append_assoc]

theorem Export_list_namespaces_error_witness :
    ∃ e, (Export unreachableClient ∅).ret = .error e ∧
      GoError.errorString "connection refused" ∈ e.chain ∧
      e.Error = "error exporting partitions: error listing namespaces: " ++
        "connection refused" ∧
      (Export unreachableClient ∅).calls = [Call.ListNamespaces] :=
  Export_list_namespaces_error unreachableClient ∅
    (GoError.errorString "connection refused") rfl

/-- C9 (empty input): when the namespace listing succeeds with an empty list,
`Export` returns, without error, the document whose namespace mapping has no
entry, and the namespace listing is the only request issued. -/
theorem Export_no_namespaces (client : Client) (excludeTypes : GoSet)
    (h : client.ListNamespaces = .ok []) :
    (Export client excludeTypes).ret = .ok { Namespaces := ∅ } ∧
      (Export client excludeTypes).calls = [Call.ListNamespaces] := by
  rw [Export_of_list_ok client excludeTypes [] h]
  exact ⟨rfl, rfl⟩

theorem Export_no_namespaces_witness :
    (Export emptyClient ∅).ret = .ok { Namespaces := ∅ } ∧
      (Export emptyClient ∅).calls = [Call.ListNamespaces] :=
  Export_no_namespaces emptyClient ∅ rfl

/-! ## The exclusion set is not consulted -/

theorem exportJobsLoop_excludeTypes (client : Client) (E1 E2 : GoSet) (ns : String) :
    ∀ (jobs : List JobListStub) (jmap : GoMap JobData),
      exportJobsLoop ⟨client, E1⟩ ns jobs jmap = exportJobsLoop ⟨client, E2⟩ ns jobs jmap := by
  intro jobs
  induction jobs with
  | nil => intro _; rfl
  | cons job rest ih =>
    intro jmap
    cases hg : client.GetJob job.ID ns with
    | error err => simp [exportJobsLoop, hg]
    | ok d => simp [exportJobsLoop, hg, ih]

theorem exportNamespace_excludeTypes (client : Client) (E1 E2 : GoSet) (ns : String) :
    exporter.exportNamespace ⟨client, E1⟩ ns = exporter.exportNamespace ⟨client, E2⟩ ns := by
  simp only [exporter.exportNamespace, exporter.exportJobs]
  cases client.ListJobs ns with
  | error err => rfl
  | ok jobs => simp only [exportJobsLoop_excludeTypes client E1 E2 ns jobs ∅]

theorem exportNamespacesLoop_excludeTypes (client : Client) (E1 E2 : GoSet) :
    ∀ (l : List Namespace) (nmap : GoMap NamespaceData),
      exportNamespacesLoop ⟨client, E1⟩ l nmap = exportNamespacesLoop ⟨client, E2⟩ l nmap := by
  intro l
  induction l with
  | nil => intro _; rfl
  | cons a rest ih =>
    intro nmap
    simp only [exportNamespacesLoop, exportNamespace_excludeTypes client E1 E2 a.Name]
    cases (exporter.exportNamespace ⟨client, E2⟩ a.Name).ret with
    | error err => rfl
    | ok nd => simp only [ih]

/-- C8 (the traversal does not branch on the exclusion set): for every client
and every two exclusion sets, `Export` returns the same document or the same
error and issues the same sequence of requests. -/
theorem Export_excludeTypes_irrelevant (client : Client) (E1 E2 : GoSet) :
    (Export client E1).ret = (Export client E2).ret ∧
      (Export client E1).calls = (Export client E2).calls := by
  have h : Export client E1 = Export client E2 := by
    simp only [Export, newExporter, exporter.Export, exporter.exportNamespaces]
    cases client.ListNamespaces with
    | error err => rfl
    | ok l => simp only [exportNamespacesLoop_excludeTypes client E1 E2 l ∅]
  rw [h]
  exact ⟨rfl, rfl⟩

/-! ## Counting the requests -/

/-- The job listings requested by one exported namespace. -/
theorem exportNamespace_ok_count_ListJobs (e : exporter) (ns : String) (nd : NamespacedData)
    (h : (e.exportNamespace ns).ret = .ok nd) (n : String) :
    (e.exportNamespace ns).calls.count (Call.ListJobs n) = if ns = n then 1 else 0 := by
  obtain ⟨jobs, -, -, hc⟩ := exportNamespace_ok_inv e ns nd h
  rw [hc, List.count_cons]
  have h0 : (jobs.map (fun j => Call.GetJob j.ID ns)).count (Call.ListJobs n) = 0 := by
    rw [List.count_eq_zero]
    simp
  rw [h0]
  by_cases hn : ns = n <;> simp [hn]

/-- The fetches requested by one exported namespace. -/
theorem exportNamespace_ok_count_GetJob (e : exporter) (ns : String) (nd : NamespacedData)
    (h : (e.exportNamespace ns).ret = .ok nd) (jobs : List JobListStub)
    (hl : e.client.ListJobs ns = .ok jobs) (id n : String) :
    (e.exportNamespace ns).calls.count (Call.GetJob id n) =
      if ns = n then (jobs.map JobListStub.ID).count id else 0 := by
  obtain ⟨jobs', hl', -, hc⟩ := exportNamespace_ok_inv e ns nd h
  rw [hl] at hl'
  cases hl'
  rw [hc, List.count_cons]
  have hne : (Call.ListJobs ns == Call.GetJob id n) = false := by simp
  rw [hne]
  simp only [Bool.false_eq_true, if_false, add_zero]
  by_cases hn : ns = n
  · subst hn
    simp only [if_true]
    clear hc hl h
    induction jobs with
    | nil => rfl
    | cons j rest ih =>
      simp only [List.map_cons, List.count_cons, ih]
      by_cases hj : j.ID = id <;> simp [hj]
  · simp only [hn, if_false]
    rw [List.count_eq_zero]
    simp [hn]

/-- In a successful run the job listing of `n` is requested once for each
occurrence of `n` among the listed names. -/
theorem Export_ok_count_ListJobs (client : Client) (excludeTypes : GoSet) (data : Data)
    (h : (Export client excludeTypes).ret = .ok data) (l : List Namespace)
    (hl : client.ListNamespaces = .ok l) (n : String) :
    (Export client excludeTypes).calls.count (Call.ListJobs n) =
      (l.map Namespace.Name).count n := by
  obtain ⟨l', hl', hloop, hc⟩ := Export_ok_inv client excludeTypes data h
  rw [hl] at hl'
  cases hl'
  have hall := exportNamespacesLoop_ok_exported _ l ∅ _ hloop
  rw [hc, List.count_cons]
  have hne : (Call.ListNamespaces == Call.ListJobs n) = false := by simp
  rw [hne]
  simp only [Bool.false_eq_true, if_false, add_zero]
  clear hc hloop hl h
  induction l with
  | nil => rfl
  | cons a rest ih =>
    obtain ⟨nd, hnd⟩ := hall a (List.mem_cons_self _ _)
    rw [List.flatMap_cons, List.count_append,
      exportNamespace_ok_count_ListJobs _ a.Name nd hnd n,
      ih (fun p hp => hall p (List.mem_cons_of_mem _ hp)), List.map_cons, List.count_cons]
    by_cases ha : a.Name = n <;> simp [ha, Nat.add_comm]

/-- In a successful run the fetch of `id` in `n` is requested once for each
pair of an occurrence of `n` among the listed names and an occurrence of `id`
among the IDs listed for `n`. -/
theorem Export_ok_count_GetJob (client : Client) (excludeTypes : GoSet) (data : Data)
    (h : (Export client excludeTypes).ret = .ok data) (l : List Namespace)
    (hl : client.ListNamespaces = .ok l) (n : String) (jobs : List JobListStub)
    (hj : client.ListJobs n = .ok jobs) (id : String) :
    (Export client excludeTypes).calls.count (Call.GetJob id n) =
      (l.map Namespace.Name).count n * (jobs.map JobListStub.ID).count id := by
  obtain ⟨l', hl', hloop, hc⟩ := Export_ok_inv client excludeTypes data h
  rw [hl] at hl'
  cases hl'
  have hall := exportNamespacesLoop_ok_exported _ l ∅ _ hloop
  rw [hc, List.count_cons]
  have hne : (Call.ListNamespaces == Call.GetJob id n) = false := by simp
  rw [hne]
  simp only [Bool.false_eq_true, if_false, add_zero]
  clear hc hloop hl h
  induction l with
  | nil => simp
  | cons a rest ih =>
    obtain ⟨nd, hnd⟩ := hall a (List.mem_cons_self _ _)
    rw [List.flatMap_cons, List.count_append,
      ih (fun p hp => hall p (List.mem_cons_of_mem _ hp)), List.map_cons, List.count_cons]
    by_cases ha : a.Name = n
    · subst ha
      rw [exportNamespace_ok_count_GetJob _ a.Name nd hnd jobs hj id a.Name]
      simp [Nat.add_mul, Nat.add_comm]
    · obtain ⟨jobs', hj', -, -⟩ := exportNamespace_ok_inv _ a.Name nd hnd
      rw [exportNamespace_ok_count_GetJob _ a.Name nd hnd jobs' hj' id n]
      simp [ha]

/-- Every request of a successful run is the namespace listing, the job listing
of a listed namespace, or the fetch of a job listed in a listed namespace. -/
theorem Export_ok_calls_mem (client : Client) (excludeTypes : GoSet) (data : Data)
    (h : (Export client excludeTypes).ret = .ok data) (l : List Namespace)
    (hl : client.ListNamespaces = .ok l) (c : Call)
    (hc : c ∈ (Export client excludeTypes).calls) :
    c = Call.ListNamespaces ∨
      ∃ n ∈ l.map Namespace.Name, c = Call.ListJobs n ∨
        ∃ jobs, client.ListJobs n = .ok jobs ∧
          ∃ id ∈ jobs.map JobListStub.ID, c = Call.GetJob id n := by
  obtain ⟨l', hl', hloop, hcalls⟩ := Export_ok_inv client excludeTypes data h
  rw [hl] at hl'
  cases hl'
  have hall := exportNamespacesLoop_ok_exported _ l ∅ _ hloop
  rw [hcalls, List.mem_cons] at hc
  rcases hc with hc | hc
  · exact Or.inl hc
  · right
    obtain ⟨nsp, hnsp, hcn⟩ := List.mem_flatMap.mp hc
    obtain ⟨nd, hnd⟩ := hall nsp hnsp
    obtain ⟨jobs, hjl, -, hjc⟩ := exportNamespace_ok_inv _ nsp.Name nd hnd
    rw [hjc, List.mem_cons] at hcn
    refine ⟨nsp.Name, List.mem_map_of_mem _ hnsp, ?_⟩
    rcases hcn with hcn | hcn
    · exact Or.inl hcn
    · right
      obtain ⟨j, hj, hcj⟩ := List.mem_map.mp hcn
      exact ⟨jobs, hjl, j.ID, List.mem_map_of_mem _ hj, hcj.symm⟩

/-- C6 as stated fails: `duplicateClient` lists the name `dev` twice, the run
succeeds, and the job listing of `dev` is requested twice, not once. -/
theorem Export_exactly_once_counterexample :
    duplicateClient.ListNamespaces =
        .ok [{ Name := "dev", Description := "first" },
          { Name := "dev", Description := "second" }] ∧
      (Export duplicateClient ∅).ret = .ok duplicateData ∧
      (Export duplicateClient ∅).calls =
        [Call.ListNamespaces, Call.ListJobs "dev", Call.ListJobs "dev"] ∧
      (Export duplicateClient ∅).calls.count (Call.ListJobs "dev") = 2 := by
  refine ⟨rfl, rfl, rfl, ?_⟩
  decide

/-- C6 (exactly-once fetching), amended: for every client whose listed
namespace names are pairwise distinct and whose job IDs are pairwise distinct
within each listing, the requests of a successful run contain exactly one job
listing for each listed namespace name, exactly one fetch for each pair of a
listed name and a job ID listed for it, and no other job listing or fetch. -/
theorem Export_exactly_once (client : Client) (excludeTypes : GoSet) (data : Data)
    (l : List Namespace)
    (h : (Export client excludeTypes).ret = .ok data)
    (hl : client.ListNamespaces = .ok l)
    (hnd : (l.map Namespace.Name).Nodup)
    (hjnd : ∀ n ∈ l.map Namespace.Name, ∀ jobs, client.ListJobs n = .ok jobs →
      (jobs.map JobListStub.ID).Nodup) :
    (∀ n ∈ l.map Namespace.Name,
        (Export client excludeTypes).calls.count (Call.ListJobs n) = 1) ∧
      (∀ n ∈ l.map Namespace.Name, ∃ jobs, client.ListJobs n = .ok jobs ∧
        ∀ id ∈ jobs.map JobListStub.ID,
          (Export client excludeTypes).calls.count (Call.GetJob id n) = 1) ∧
      (∀ n, Call.ListJobs n ∈ (Export client excludeTypes).calls →
        n ∈ l.map Namespace.Name) ∧
      (∀ id n, Call.GetJob id n ∈ (Export client excludeTypes).calls →
        n ∈ l.map Namespace.Name ∧
          ∃ jobs, client.ListJobs n = .ok jobs ∧ id ∈ jobs.map JobListStub.ID) := by
  refine ⟨?_, ?_, ?_, ?_⟩
  · intro n hn
    rw [Export_ok_count_ListJobs client excludeTypes data h l hl n]
    exact List.count_eq_one_of_mem hnd hn
  · intro n hn
    obtain ⟨l', hl', hloop, -⟩ := Export_ok_inv client excludeTypes data h
    rw [hl] at hl'
    cases hl'
    obtain ⟨nsp, hnsp, rfl⟩ := List.mem_map.mp hn
    obtain ⟨nd, hnd'⟩ := exportNamespacesLoop_ok_exported _ l ∅ _ hloop nsp hnsp
    obtain ⟨jobs, hjl, -, -⟩ := exportNamespace_ok_inv _ nsp.Name nd hnd'
    refine ⟨jobs, hjl, ?_⟩
    intro id hid
    rw [Export_ok_count_GetJob client excludeTypes data h l hl nsp.Name jobs hjl id,
      List.count_eq_one_of_mem hnd hn,
      List.count_eq_one_of_mem (hjnd nsp.Name hn jobs hjl) hid]
  · intro n hc
    rcases Export_ok_calls_mem client excludeTypes data h l hl _ hc with h0 | ⟨m, hm, h1 | h2⟩
    · cases h0
    · cases h1
      exact hm
    · obtain ⟨_, _, _, _, h3⟩ := h2
      cases h3
  · intro id n hc
    rcases Export_ok_calls_mem client excludeTypes data h l hl _ hc with h0 | ⟨m, hm, h1 | h2⟩
    · cases h0
    · cases h1
    · obtain ⟨jobs, hjl, id', hid', h3⟩ := h2
      cases h3
      exact ⟨hm, jobs, hjl, hid'⟩

theorem Export_exactly_once_witness :
    (∀ n ∈ ["default"], (Export scenarioClient ∅).calls.count (Call.ListJobs n) = 1) ∧
      (∀ n ∈ ["default"], ∃ jobs, scenarioClient.ListJobs n = .ok jobs ∧
        ∀ id ∈ jobs.map JobListStub.ID,
          (Export scenarioClient ∅).calls.count (Call.GetJob id n) = 1) ∧
      (∀ n, Call.ListJobs n ∈ (Export scenarioClient ∅).calls → n ∈ ["default"]) ∧
      (∀ id n, Call.GetJob id n ∈ (Export scenarioClient ∅).calls →
        n ∈ ["default"] ∧
          ∃ jobs, scenarioClient.ListJobs n = .ok jobs ∧ id ∈ jobs.map JobListStub.ID) :=
  Export_exactly_once scenarioClient ∅ scenarioData
    [{ Name := "default", Description := "Default shared namespace" }] rfl rfl
    (by decide)
    (by
      intro n hn jobs hj
      rw [List.map_singleton, List.mem_singleton] at hn
      subst hn
      have hjobs : jobs = [{ ID := "job-1", Name := "web", Status := "running" }] :=
        (Except.ok.inj hj).symm
      subst hjobs
      decide)

/-! ## Order of the listings -/

/-- Two job loops over the same jobs in different orders, with pairwise
distinct IDs and the same fetch results, return the same map. -/
theorem exportJobsLoop_perm (e1 e2 : exporter) (ns : String) (j1 j2 : List JobListStub)
    (m1 m2 : GoMap JobData)
    (h1 : (exportJobsLoop e1 ns j1 ∅).ret = .ok m1)
    (h2 : (exportJobsLoop e2 ns j2 ∅).ret = .ok m2)
    (hp : j1.Perm j2) (hnd : (j1.map JobListStub.ID).Nodup)
    (hget : ∀ j ∈ j1, e1.client.GetJob j.ID ns = e2.client.GetJob j.ID ns) :
    m1 = m2 := by
  apply Finmap.ext_lookup
  intro k
  have hnd2 : (j2.map JobListStub.ID).Nodup := (hp.map _).nodup_iff.mp hnd
  by_cases hk : k ∈ j1.map JobListStub.ID
  · obtain ⟨j, hj, rfl⟩ := List.mem_map.mp hk
    obtain ⟨d, hd⟩ := exportJobsLoop_ok_fetched e1 ns j1 ∅ m1 h1 j hj
    have hd2 : e2.client.GetJob j.ID ns = .ok d := by rw [← hget j hj, hd]
    rw [exportJobsLoop_ok_lookup_of_nodup e1 ns j1 ∅ m1 h1 hnd j hj d hd,
      exportJobsLoop_ok_lookup_of_nodup e2 ns j2 ∅ m2 h2 hnd2 j (hp.subset hj) d hd2]
  · have hk2 : k ∉ j2.map JobListStub.ID := fun h => hk ((hp.map _).symm.subset h)
    rw [exportJobsLoop_ok_lookup_of_not_mem e1 ns j1 ∅ m1 h1 k hk,
      exportJobsLoop_ok_lookup_of_not_mem e2 ns j2 ∅ m2 h2 k hk2]

/-- Two namespace loops over the same namespaces in different orders, with
pairwise distinct names and the same result for each name, return the same
map. -/
theorem exportNamespacesLoop_perm (e1 e2 : exporter) (l1 l2 : List Namespace)
    (m1 m2 : GoMap NamespaceData)
    (h1 : (exportNamespacesLoop e1 l1 ∅).ret = .ok m1)
    (h2 : (exportNamespacesLoop e2 l2 ∅).ret = .ok m2)
    (hp : l1.Perm l2) (hnd : (l1.map Namespace.Name).Nodup)
    (hsame : ∀ nsp ∈ l1, ∀ nd1 nd2, (e1.exportNamespace nsp.Name).ret = .ok nd1 →
      (e2.exportNamespace nsp.Name).ret = .ok nd2 → nd1 = nd2) :
    m1 = m2 := by
  apply Finmap.ext_lookup
  intro k
  have hnd2 : (l2.map Namespace.Name).Nodup := (hp.map _).nodup_iff.mp hnd
  by_cases hk : k ∈ l1.map Namespace.Name
  · obtain ⟨nsp, hn, rfl⟩ := List.mem_map.mp hk
    obtain ⟨nd1, hnd1⟩ := exportNamespacesLoop_ok_exported e1 l1 ∅ m1 h1 nsp hn
    obtain ⟨nd2, hnd2'⟩ := exportNamespacesLoop_ok_exported e2 l2 ∅ m2 h2 nsp (hp.subset hn)
    have heq : nd1 = nd2 := hsame nsp hn nd1 nd2 hnd1 hnd2'
    subst heq
    rw [exportNamespacesLoop_ok_lookup_of_nodup e1 l1 ∅ m1 h1 hnd nsp hn nd1 hnd1,
      exportNamespacesLoop_ok_lookup_of_nodup e2 l2 ∅ m2 h2 hnd2 nsp (hp.subset hn) nd1 hnd2']
  · have hk2 : k ∉ l2.map Namespace.Name := fun h => hk ((hp.map _).symm.subset h)
    rw [exportNamespacesLoop_ok_lookup_of_not_mem e1 l1 ∅ m1 h1 k hk,
      exportNamespacesLoop_ok_lookup_of_not_mem e2 l2 ∅ m2 h2 k hk2]

/-- C10 (order-independence): for two clients whose namespace listings are
permutations of each other with pairwise distinct names, whose job listings for
each listed name are permutations of each other with pairwise distinct IDs, and
whose fetches succeed with the same definition, `Export` returns the same
document for both. -/
theorem Export_order_independent (c1 c2 : Client) (excludeTypes : GoSet)
    (l1 l2 : List Namespace)
    (h1 : c1.ListNamespaces = .ok l1) (h2 : c2.ListNamespaces = .ok l2)
    (hp : l1.Perm l2) (hnd : (l1.map Namespace.Name).Nodup)
    (hj : ∀ nsp ∈ l1, ∃ j1 j2, c1.ListJobs nsp.Name = .ok j1 ∧
      c2.ListJobs nsp.Name = .ok j2 ∧ j1.Perm j2 ∧ (j1.map JobListStub.ID).Nodup ∧
      ∀ j ∈ j1, ∃ d, c1.GetJob j.ID nsp.Name = .ok d ∧ c2.GetJob j.ID nsp.Name = .ok d) :
    ∃ data, (Export c1 excludeTypes).ret = .ok data ∧
      (Export c2 excludeTypes).ret = .ok data := by
  have hs1 : ∀ nsp ∈ l1, ∃ jobs, c1.ListJobs nsp.Name = .ok jobs ∧
      ∀ j ∈ jobs, ∃ d, c1.GetJob j.ID nsp.Name = .ok d := by
    intro nsp hn
    obtain ⟨j1, _, hj1, _, _, _, hg⟩ := hj nsp hn
    exact ⟨j1, hj1, fun j hjm => (hg j hjm).imp fun _ hd => hd.1⟩
  have hs2 : ∀ nsp ∈ l2, ∃ jobs, c2.ListJobs nsp.Name = .ok jobs ∧
      ∀ j ∈ jobs, ∃ d, c2.GetJob j.ID nsp.Name = .ok d := by
    intro nsp hn
    obtain ⟨j1, j2, _, hj2, hpj, _, hg⟩ := hj nsp (hp.symm.subset hn)
    exact ⟨j2, hj2, fun j hjm => (hg j (hpj.symm.subset hjm)).imp fun _ hd => hd.2⟩
  obtain ⟨d1, hd1⟩ := Export_total c1 excludeTypes l1 h1 hs1
  obtain ⟨d2, hd2⟩ := Export_total c2 excludeTypes l2 h2 hs2
  obtain ⟨l1', hl1', hloop1, -⟩ := Export_ok_inv c1 excludeTypes d1 hd1
  obtain ⟨l2', hl2', hloop2, -⟩ := Export_ok_inv c2 excludeTypes d2 hd2
  rw [h1] at hl1'
  rw [h2] at hl2'
  cases hl1'
  cases hl2'
  have hmaps : d1.Namespaces = d2.Namespaces := by
    apply exportNamespacesLoop_perm _ _ l1 l2 _ _ hloop1 hloop2 hp hnd
    intro nsp hn nd1 nd2 hn1 hn2
    obtain ⟨j1, j2, hj1, hj2, hpj, hjnd, hg⟩ := hj nsp hn
    obtain ⟨j1', hj1', hjl1, -⟩ := exportNamespace_ok_inv _ nsp.Name nd1 hn1
    obtain ⟨j2', hj2', hjl2, -⟩ := exportNamespace_ok_inv _ nsp.Name nd2 hn2
    have hj1'' : c1.ListJobs nsp.Name = .ok j1' := hj1'
    have hj2'' : c2.ListJobs nsp.Name = .ok j2' := hj2'
    rw [hj1] at hj1''
    rw [hj2] at hj2''
    cases hj1''
    cases hj2''
    have hjobs : nd1.Jobs = nd2.Jobs := by
      apply exportJobsLoop_perm _ _ nsp.Name j1 j2 _ _ hjl1 hjl2 hpj hjnd
      intro j hjm
      obtain ⟨d, hda, hdb⟩ := hg j hjm
      show c1.GetJob j.ID nsp.Name = c2.GetJob j.ID nsp.Name
      rw [hda, hdb]
    cases nd1
    cases nd2
    simp only at hjobs
    rw [hjobs]
  refine ⟨d1, hd1, ?_⟩
  rw [hd2]
  cases d1
  cases d2
  simp only at hmaps
  rw [hmaps]

theorem Export_order_independent_witness :
    ∃ data, (Export orderedClient ∅).ret = .ok data ∧
      (Export reversedClient ∅).ret = .ok data :=
  Export_order_independent orderedClient reversedClient ∅
    [{ Name := "default", Description := "" }, { Name := "apps", Description := "" }]
    [{ Name := "apps", Description := "" }, { Name := "default", Description := "" }]
    rfl rfl (List.Perm.swap _ _ _) (by decide)
    (by
      intro nsp hn
      rw [List.mem_cons, List.mem_singleton] at hn
      rcases hn with rfl | rfl
      · refine ⟨[{ ID := "job-1", Name := "web", Status := "running" },
            { ID := "job-2", Name := "db", Status := "running" }],
          [{ ID := "job-2", Name := "db", Status := "running" },
            { ID := "job-1", Name := "web", Status := "running" }],
          rfl, rfl, List.Perm.swap _ _ _, by decide, ?_⟩
        intro j _
        exact ⟨_, rfl, rfl⟩
      · exact ⟨[], [], rfl, rfl, List.Perm.refl _, by decide, by simp⟩)

/-! ## The exclusion flag -/

theorem mem_foldl_insert (x : String) :
    ∀ (A : List String) (acc : GoSet),
      x ∈ A.foldl (fun acc v => insert v acc) acc ↔ x ∈ acc ∨ x ∈ A := by
  intro A
  induction A with
  | nil => intro acc; simp
  | cons a rest ih =>
    intro acc
    rw [List.foldl_cons, ih, Finset.mem_insert, List.mem_cons]
    tauto

/-- The allowed set after `init` holds exactly the members of the list. -/
theorem mem_init_allowed (A : List String) (x : String) :
    x ∈ (setValue.init A).allowed ↔ x ∈ A := by
  simp [setValue.init, mem_foldl_insert]

theorem sliceString_dataTypes :
    sliceString (setValue.init dataTypes).allowed = "acls, catalog, config-entries" := by
  have hset : (setValue.init dataTypes).allowed =
      (["acls", "catalog", "config-entries"] : List String).toFinset := by
    ext x
    rw [mem_init_allowed]
    simp only [dataTypes, List.mem_toFinset, List.mem_cons, List.mem_singleton,
      List.not_mem_nil, or_false]
    tauto
  have h1 : "acls" ≤ "catalog" :=
    le_of_lt (String.lt_iff_toList_lt.mpr (by decide))
  have h2 : "acls" ≤ "config-entries" :=
    le_of_lt (String.lt_iff_toList_lt.mpr (by decide))
  have h3 : "catalog" ≤ "config-entries" :=
    le_of_lt (String.lt_iff_toList_lt.mpr (by decide))
  have hsorted : List.Sorted (· ≤ ·) (["acls", "catalog", "config-entries"] : List String) := by
    refine List.Pairwise.cons ?_ (List.Pairwise.cons ?_ (List.pairwise_singleton _ _))
    · intro x hx
      rw [List.mem_cons, List.mem_singleton] at hx
      rcases hx with rfl | rfl
      · exact h1
      · exact h2
    · intro x hx
      rw [List.mem_singleton] at hx
      subst hx
      exact h3
  have hsort : Finset.sort (· ≤ ·)
      (["acls", "catalog", "config-entries"] : List String).toFinset =
      ["acls", "catalog", "config-entries"] :=
    (List.toFinset_sort (· ≤ ·) (by decide)).mpr hsorted
  rw [sliceString, hset, hsort]
  decide

/-- C7 (exclusion validation): for a `setValue` whose allowed set is the one
`init` builds from the list `A`, `Set v` returns an error exactly when `v` is
not in `A`; in that case the receiver is unchanged and the text of the error is
`Value `, the `%q` rendering of `v`, ` is not allowed. Allowed values are: ` and
the members of `A` in strictly ascending order joined by `, ` (which for
`dataTypes` is `acls, catalog, config-entries`); otherwise the chosen values
become the old ones with `v` added and the allowed set is unchanged. -/
theorem setValue_Set_spec (quote : String → String) (A : List String) (s : setValue)
    (hs : s.allowed = (setValue.init A).allowed) (v : String) :
    (((s.Set quote v).2).isSome ↔ v ∉ A) ∧
      (v ∉ A → (s.Set quote v).1 = s ∧
        ∃ L : List String, L.Sorted (· < ·) ∧ (∀ x, x ∈ L ↔ x ∈ A) ∧
          (s.Set quote v).2 = some (GoError.errorString ("Value " ++ quote v ++
            " is not allowed. Allowed values are: " ++ ", ".intercalate L))) ∧
      (v ∉ A → A = dataTypes →
        (s.Set quote v).2 = some (GoError.errorString ("Value " ++ quote v ++
          " is not allowed. Allowed values are: " ++ "acls, catalog, config-entries"))) ∧
      (v ∈ A → (s.Set quote v).1.values = insert v s.values ∧
        (s.Set quote v).1.allowed = s.allowed) := by
  have hmem : v ∈ s.allowed ↔ v ∈ A := by rw [hs, mem_init_allowed]
  refine ⟨?_, ?_, ?_, ?_⟩
  · by_cases hv : v ∈ A
    · simp [setValue.Set, hmem.mpr hv, hv]
    · simp [setValue.Set, mt hmem.mp hv, hv]
  · intro hv
    have hv' : v ∉ s.allowed := mt hmem.mp hv
    refine ⟨by simp [setValue.Set, hv'], s.allowed.sort (· ≤ ·),
      Finset.sort_sorted_lt _, ?_, by simp [setValue.Set, hv', sliceString]⟩
    intro x
    rw [Finset.mem_sort, hs, mem_init_allowed]
  · intro hv hA
    have hv' : v ∉ s.allowed := mt hmem.mp hv
    subst hA
    simp only [setValue.Set, hv', if_false]
    rw [hs, sliceString_dataTypes]
  · intro hv
    simp [setValue.Set, hmem.mpr hv]

theorem setValue_Set_spec_witness :
    ((((setValue.init dataTypes).Set quotePlain "bogus").2).isSome ↔ "bogus" ∉ dataTypes) ∧
      ("bogus" ∉ dataTypes →
        ((setValue.init dataTypes).Set quotePlain "bogus").1 = setValue.init dataTypes ∧
        ∃ L : List String, L.Sorted (· < ·) ∧ (∀ x, x ∈ L ↔ x ∈ dataTypes) ∧
          ((setValue.init dataTypes).Set quotePlain "bogus").2 =
            some (GoError.errorString ("Value " ++ quotePlain "bogus" ++
              " is not allowed. Allowed values are: " ++ ", ".intercalate L))) ∧
      ("bogus" ∉ dataTypes → dataTypes = dataTypes →
        ((setValue.init dataTypes).Set quotePlain "bogus").2 =
          some (GoError.errorString ("Value " ++ quotePlain "bogus" ++
            " is not allowed. Allowed values are: " ++ "acls, catalog, config-entries"))) ∧
      ("bogus" ∈ dataTypes →
        ((setValue.init dataTypes).Set quotePlain "bogus").1.values =
          insert "bogus" (setValue.init dataTypes).values ∧
        ((setValue.init dataTypes).Set quotePlain "bogus").1.allowed =
          (setValue.init dataTypes).allowed) :=
  setValue_Set_spec quotePlain dataTypes (setValue.init dataTypes) rfl "bogus"

end NomadExport
